import Mathlib

/-! Verification development for the blocked fast-slow Metropolis MCMC sampler
(cobaya, samplers/mcmc/mcmc.py). Python float values that can hold a
log-posterior are modelled by the type F below: NaN, minus infinity, a finite
rational, or plus infinity, with IEEE comparison and arithmetic semantics
(any comparison against NaN is false, inf - inf = NaN, NaN propagates).
Rationals stand in for finite doubles; no rounding is modelled.
-/

/-- Idealised Python float: NaN, minus infinity, finite value, plus infinity. -/
inductive F where
  | nan : F
  | neginf : F
  | fin : ℚ → F
  | posinf : F
deriving DecidableEq

/-- True exactly on finite values. -/
def F.isFinite : F → Bool
  | .fin _ => true
  | _ => false

/-- IEEE strict less-than: any comparison involving NaN is false. -/
def F.lt : F → F → Bool
  | .nan, _ => false
  | .neginf, .nan => false
  | .neginf, .neginf => false
  | .neginf, .fin _ => true
  | .neginf, .posinf => true
  | .fin _, .nan => false
  | .fin _, .neginf => false
  | .fin a, .fin b => decide (a < b)
  | .fin _, .posinf => true
  | .posinf, _ => false

/-- IEEE negation. -/
def F.neg : F → F
  | .nan => .nan
  | .neginf => .posinf
  | .fin a => .fin (-a)
  | .posinf => .neginf

/-- IEEE addition: NaN propagates and opposite infinities give NaN. -/
def F.add : F → F → F
  | .nan, _ => .nan
  | .neginf, .nan => .nan
  | .neginf, .neginf => .neginf
  | .neginf, .fin _ => .neginf
  | .neginf, .posinf => .nan
  | .fin _, .nan => .nan
  | .fin _, .neginf => .neginf
  | .fin a, .fin b => .fin (a + b)
  | .fin _, .posinf => .posinf
  | .posinf, .nan => .nan
  | .posinf, .neginf => .nan
  | .posinf, .fin _ => .posinf
  | .posinf, .posinf => .posinf

/-- IEEE subtraction, defined as addition of the negation. -/
def F.sub (a b : F) : F := a.add b.neg

/-- IEEE multiplication: NaN propagates and zero times infinity gives NaN. -/
def F.mul : F → F → F
  | .nan, _ => .nan
  | .neginf, .nan => .nan
  | .neginf, .neginf => .posinf
  | .neginf, .fin b => if 0 < b then .neginf else if b < 0 then .posinf else .nan
  | .neginf, .posinf => .neginf
  | .fin _, .nan => .nan
  | .fin a, .neginf => if 0 < a then .neginf else if a < 0 then .posinf else .nan
  | .fin a, .fin b => .fin (a * b)
  | .fin a, .posinf => if 0 < a then .posinf else if a < 0 then .neginf else .nan
  | .posinf, .nan => .nan
  | .posinf, .neginf => .neginf
  | .posinf, .fin b => if 0 < b then .posinf else if b < 0 then .neginf else .nan
  | .posinf, .posinf => .posinf

/-- Division of a float accumulator by a natural count, as numpy performs it:
for a positive count the finite quotient, infinities and NaN are kept; for a
zero count the sign-dependent limit with a runtime warning (numpy semantics). -/
def F.divNat (a : F) (n : ℕ) : F :=
  if n = 0 then
    match a with
    | .nan => .nan
    | .neginf => .neginf
    | .fin q => if 0 < q then .posinf else if q < 0 then .neginf else .nan
    | .posinf => .posinf
  else
    match a with
    | .nan => .nan
    | .neginf => .neginf
    | .fin q => .fin (q / (n : ℚ))
    | .posinf => .posinf

/-- mcmc.metropolis_accept: reject a trial whose log-posterior equals minus
infinity, accept when the trial log-posterior is greater than the current one,
otherwise accept when an Exp(1) draw exceeds the difference (IEEE comparison). -/
def metropolis_accept (draw : ℚ) (logp_trial logp_current : F) : Bool :=
  if logp_trial = F.neginf then false
  else if F.lt logp_current logp_trial then true
  else F.lt (F.sub logp_current logp_trial) (F.fin draw)

/-- Acceptance condition exactly as claim C1 states it: the trial log-posterior
is finite, and either it beats the current one or the Exp(1) draw exceeds the
difference. Stated for comparison with metropolis_accept. -/
def metropolis_accept_claim (draw : ℚ) (logp_trial logp_current : F) : Bool :=
  logp_trial.isFinite &&
    (F.lt logp_current logp_trial || F.lt (F.sub logp_current logp_trial) (F.fin draw))

/-- Claim C1 as stated is false: with a trial log-posterior of plus infinity
(not finite) and current log-posterior 0, metropolis_accept returns true while
the stated condition demands rejection of any non-finite trial. -/
theorem c1_counterexample :
    metropolis_accept 1 F.posinf (F.fin 0) = true ∧
    metropolis_accept_claim 1 F.posinf (F.fin 0) = false := by
  constructor <;> rfl

/-- Claim C1 (amended): metropolis_accept returns true if and only if the trial
log-posterior is not minus infinity and either it exceeds the current
log-posterior or the Exp(1) draw exceeds their difference, all comparisons
being IEEE float comparisons; in particular a trial at minus infinity is
always rejected, while a trial at plus infinity is accepted whenever the
current log-posterior is below plus infinity. -/
theorem c1_amended_theorem (draw : ℚ) (logp_trial logp_current : F) :
    metropolis_accept draw logp_trial logp_current =
      (decide (logp_trial ≠ F.neginf) &&
        (F.lt logp_current logp_trial ||
          F.lt (F.sub logp_current logp_trial) (F.fin draw))) := by
  unfold metropolis_accept
  by_cases h : logp_trial = F.neginf
  · simp [h]
  · simp only [h, if_false, decide_not, decide_eq_true_eq]
    cases hlt : F.lt logp_current logp_trial <;> simp [h]

/-! Covariance assembly (mcmc.initial_proposal_covmat). A sampled parameter is
described by its name, an optional declared proposal width, an optional
reference-pdf variance and the prior variance; the external covariance, when
given, carries the header names and the loaded matrix. Matrix entries during
assembly are Option rationals, none standing for NaN.
-/

/-- Per-parameter information consumed by the covariance assembler. -/
structure ParamInfo where
  name : String
  proposal : Option ℚ
  ref_variance : Option ℚ
  prior_variance : ℚ

/-- An external covariance after the validation checks of
initial_proposal_covmat: header names and the loaded square matrix. -/
structure LoadedCovmat where
  names : List String
  matrix : ℕ → ℕ → ℚ

/-- The matrix np.diag of NaN values: NaN on the diagonal, zero elsewhere. -/
def covmat_init (i j : ℕ) : Option ℚ :=
  if i = j then none else some 0

/-- Entry of the matrix after the external covariance has been copied in by
name intersection: pairs of sampled parameters both named in the header get
the loaded value at the header positions, every other entry keeps its
initial value. Assumes the sampled and the header names are duplicate free,
as the sampled parameters always are and as validation enforces for the
header. -/
def covmat_after_load (info : ℕ → ParamInfo) (ext : Option LoadedCovmat) (i j : ℕ) :
    Option ℚ :=
  match ext with
  | none => covmat_init i j
  | some e =>
    if e.names.contains (info i).name && e.names.contains (info j).name then
      some (e.matrix (e.names.indexOf (info i).name) (e.names.indexOf (info j).name))
    else covmat_init i j

/-- Entry after the proposal-width step: every still-NaN diagonal entry is set
to the squared declared proposal width, which leaves it NaN when no width is
declared (NaN squared is NaN). -/
def covmat_after_proposal (info : ℕ → ParamInfo) (ext : Option LoadedCovmat) (i j : ℕ) :
    Option ℚ :=
  if i = j then
    match covmat_after_load info ext i i with
    | none => ((info i).proposal).map (fun w => w ^ 2)
    | some v => some v
  else covmat_after_load info ext i j

/-- Modelled from the spec: prior.reference_covmat (not under src) supplies a
diagonal whose entry for a parameter is the reference-pdf variance when
defined and the prior variance otherwise. -/
def reference_covmat_diag (p : ParamInfo) : ℚ :=
  p.ref_variance.getD p.prior_variance

/-- Entry of the assembled matrix returned by initial_proposal_covmat: any
diagonal entry still NaN after the proposal-width step is filled from the
reference covariance diagonal. -/
def initial_proposal_covmat (info : ℕ → ParamInfo) (ext : Option LoadedCovmat) (i j : ℕ) :
    Option ℚ :=
  if i = j then
    match covmat_after_proposal info ext i i with
    | none => some (reference_covmat_diag (info i))
    | some v => some v
  else covmat_after_proposal info ext i j

/-- The covmat check of initial_proposal_covmat that triggers the early
learning threshold: some diagonal entry is still NaN right after the external
covariance step. -/
def early_threshold_update (d : ℕ) (info : ℕ → ParamInfo) (ext : Option LoadedCovmat) :
    Bool :=
  (List.range d).any fun i => (covmat_after_load info ext i i).isNone

/-- The operational learning threshold after initial_proposal_covmat ran:
replaced by the early value exactly when the early update fired. -/
def learn_proposal_Rminus1_max_final (d : ℕ) (info : ℕ → ParamInfo)
    (ext : Option LoadedCovmat) (configured early : ℚ) : ℚ :=
  if early_threshold_update d info ext then early else configured

/-- Diagonal fallback exactly as claim C2 ranks it: squared proposal width if
declared, else reference variance if defined, else prior variance. -/
def covmat_diag_fallback (p : ParamInfo) : ℚ :=
  match p.proposal with
  | some w => w ^ 2
  | none =>
    match p.ref_variance with
    | some r => r
    | none => p.prior_variance

/-- Entry value exactly as claim C2 states the assembled covariance: the
loaded value when the external covariance supplies both parameters, otherwise
the ranked diagonal fallback on the diagonal and zero off the diagonal. -/
def covmat_value_claim (info : ℕ → ParamInfo) (ext : Option LoadedCovmat) (i j : ℕ) : ℚ :=
  match ext with
  | none => if i = j then covmat_diag_fallback (info i) else 0
  | some e =>
    if e.names.contains (info i).name && e.names.contains (info j).name then
      e.matrix (e.names.indexOf (info i).name) (e.names.indexOf (info j).name)
    else if i = j then covmat_diag_fallback (info i) else 0

/-- Claim C2: every entry of the assembled proposal covariance is defined (no
NaN remains) and follows the stated priority: the externally loaded value when
the external covariance supplies the pair, else the squared declared proposal
width, else the reference variance, else the prior variance on the diagonal,
and zero off the diagonal when not externally supplied. -/
theorem c2_theorem (info : ℕ → ParamInfo) (ext : Option LoadedCovmat) (i j : ℕ) :
    initial_proposal_covmat info ext i j = some (covmat_value_claim info ext i j) := by
  unfold initial_proposal_covmat covmat_after_proposal covmat_after_load
    covmat_value_claim covmat_diag_fallback covmat_init reference_covmat_diag
  by_cases hij : i = j
  · subst hij
    cases ext with
    | none =>
      simp only [if_pos rfl]
      cases hp : (info i).proposal with
      | none =>
        cases hr : (info i).ref_variance with
        | none => simp [hp, hr, Option.getD]
        | some r => simp [hp, hr, Option.getD]
      | some w => simp [hp]
    | some e =>
      by_cases hi : (info i).name ∈ e.names
      · simp [hi]
      · cases hp : (info i).proposal with
        | none =>
          cases hr : (info i).ref_variance with
          | none => simp [hp, hr, hi, Option.getD]
          | some r => simp [hp, hr, hi, Option.getD]
        | some w => simp [hp, hi]
  · cases ext with
    | none => simp [hij]
    | some e =>
      by_cases hi : (info i).name ∈ e.names
      · by_cases hj : (info j).name ∈ e.names
        · simp [hij, hi, hj]
        · simp [hij, hi, hj]
      · simp [hij, hi]

/-- A single sampled parameter with no declared proposal width and a defined
reference variance, used to settle claim C7. -/
def c7_param : ParamInfo :=
  { name := "a", proposal := none, ref_variance := some 1, prior_variance := 2 }

/-- Claim C7 as stated is false: with one sampled parameter, no external
covariance and no declared proposal width, the early threshold update fires
(the diagonal was not supplied externally) although no diagonal entry is
filled from a declared proposal width in step 2 (the gap is filled from the
reference variance instead). -/
theorem c7_counterexample :
    early_threshold_update 1 (fun _ => c7_param) none = true ∧
    ¬ ∃ i : Fin 1,
        covmat_after_load (fun _ => c7_param) none i i = none ∧
        ((fun _ => c7_param) i.val).proposal.isSome = true := by
  constructor
  · rfl
  · rintro ⟨i, -, h⟩
    simp [c7_param] at h

/-- Claim C7 (amended): the operational learning threshold is set to the early
value exactly when some diagonal entry is still NaN after the external
covariance step, that is, exactly when the external covariance does not fully
supply the diagonal, whether or not the gap is later filled from a declared
proposal width; when the diagonal is fully supplied externally the threshold
keeps its configured value. -/
theorem c7_amended_theorem (d : ℕ) (info : ℕ → ParamInfo) (ext : Option LoadedCovmat)
    (configured early : ℚ) :
    (early_threshold_update d info ext = true ↔
      ∃ i : Fin d, covmat_after_load info ext i i = none) ∧
    (early_threshold_update d info ext = true →
      learn_proposal_Rminus1_max_final d info ext configured early = early) ∧
    (early_threshold_update d info ext = false →
      learn_proposal_Rminus1_max_final d info ext configured early = configured) := by
  refine ⟨?_, ?_, ?_⟩
  · unfold early_threshold_update
    rw [List.any_eq_true]
    constructor
    · rintro ⟨i, hi, hnone⟩
      rw [List.mem_range] at hi
      exact ⟨⟨i, hi⟩, Option.isNone_iff_eq_none.mp hnone⟩
    · rintro ⟨i, hnone⟩
      exact ⟨i.val, List.mem_range.mpr i.isLt, Option.isNone_iff_eq_none.mpr hnone⟩
  · intro h
    unfold learn_proposal_Rminus1_max_final
    rw [if_pos h]
  · intro h
    unfold learn_proposal_Rminus1_max_final
    rw [h]
    rfl

/-- Witness for claim C7 at a concrete input: with one parameter and no
external covariance the early update fires and the operational threshold
equals the early value. -/
theorem c7_witness :
    early_threshold_update 1 (fun _ => c7_param) none = true ∧
    learn_proposal_Rminus1_max_final 1 (fun _ => c7_param) none 3 5 = 5 :=
  ⟨by rfl, (c7_amended_theorem 1 (fun _ => c7_param) none 3 5).2.1 (by rfl)⟩

/-! Chain driver state (mcmc.process_accept_or_reject and the weight bookkeeping
around it). A stored point carries the sampled values, the cached
log-posterior, log-prior, log-likelihoods and derived parameters, and its
weight. The chain state holds the current point, the collection of accepted
points, the burn-in countdown and a counter of collection entries already
flushed to output (Collection.out_update). The HandledException raised on a
stuck chain is modelled by the stuck constructor of StepResult.
-/

/-- A point as stored by the sampler, with its cached evaluator outputs. -/
structure SPoint (V : Type) where
  values : V
  logpost : F
  logprior : F
  logliks : List F
  derived : List ℚ
  weight : ℕ
deriving DecidableEq

/-- The per-chain mutable state touched by process_accept_or_reject. -/
structure ChainState (V : Type) where
  current : SPoint V
  collection : List (SPoint V)
  burn_in_left : ℕ
  n_flushed : ℕ
deriving DecidableEq

/-- Result of one driver step: the new state, or the stuck-chain exception
carrying the state at the moment it is raised. -/
inductive StepResult (V : Type) where
  | ok (st : ChainState V)
  | stuck (st : ChainState V)
deriving DecidableEq

/-- Collection.out_update: every buffered collection entry is written out. -/
def out_update {V : Type} (st : ChainState V) : ChainState V :=
  { st with n_flushed := st.collection.length }

/-- mcmc.process_accept_or_reject. On accept, the outgoing current point joins
the collection when burn-in is over (flushing every output_every samples) and
otherwise consumes one unit of burn-in, and the trial becomes current with
weight one. On reject the current weight grows by one and the stuck-chain
exception fires, after a flush, when the weight exceeds max_tries. -/
def process_accept_or_reject {V : Type} (max_tries output_every : ℕ) (accept_state : Bool)
    (trial : SPoint V) (st : ChainState V) : StepResult V :=
  if accept_state then
    let st1 :=
      if st.burn_in_left = 0 then
        let st2 := { st with collection := st.collection ++ [st.current] }
        if st2.collection.length % output_every = 0 then out_update st2 else st2
      else { st with burn_in_left := st.burn_in_left - 1 }
    StepResult.ok { st1 with current := { trial with weight := 1 } }
  else
    let st1 := { st with current := { st.current with weight := st.current.weight + 1 } }
    if st1.current.weight > max_tries then StepResult.stuck (out_update st1)
    else StepResult.ok st1

/-- One engine outcome seen by the driver: an accepted trial, a rejection
routed through process_accept_or_reject, or the early rejection inside
get_new_sample_dragging that only increments the weight. -/
inductive MHEvent (V : Type) where
  | accept (trial : SPoint V)
  | reject
  | rejectEarly
deriving DecidableEq

/-- The state transition for one engine outcome. The early dragging rejection
bypasses process_accept_or_reject and with it the stuck-chain check. -/
def chain_step {V : Type} (max_tries output_every : ℕ) (e : MHEvent V) (st : ChainState V) :
    StepResult V :=
  match e with
  | .accept trial => process_accept_or_reject max_tries output_every true trial st
  | .reject => process_accept_or_reject max_tries output_every false st.current st
  | .rejectEarly =>
    StepResult.ok { st with current := { st.current with weight := st.current.weight + 1 } }

/-- Driver processing of a sequence of engine outcomes; a stuck-chain
exception aborts the run and the remaining outcomes are never processed. -/
def chain_run {V : Type} (max_tries output_every : ℕ) (st : ChainState V) :
    List (MHEvent V) → StepResult V
  | [] => StepResult.ok st
  | e :: es =>
    match chain_step max_tries output_every e st with
    | .ok st1 => chain_run max_tries output_every st1 es
    | .stuck st1 => StepResult.stuck st1

/-- The state right after run() seats the initial point: empty collection,
current weight one, burn-in countdown burn_in + 1. -/
def init_chain_state {V : Type} (x0 : SPoint V) (burn_in : ℕ) : ChainState V :=
  { current := { x0 with weight := 1 }, collection := [], burn_in_left := burn_in + 1,
    n_flushed := 0 }

/-- Total weight held by the chain: collection weights plus the current one. -/
def weight_sum {V : Type} (st : ChainState V) : ℕ :=
  (st.collection.map SPoint.weight).sum + st.current.weight

/-- Weight discarded by one engine outcome: an acceptance during burn-in drops
the outgoing current point together with its accumulated weight. -/
def discard_of {V : Type} (e : MHEvent V) (st : ChainState V) : ℕ :=
  match e with
  | .accept _ => if st.burn_in_left = 0 then 0 else st.current.weight
  | _ => 0

/-- Total weight discarded to burn-in along a processed sequence. -/
def burn_discards {V : Type} (max_tries output_every : ℕ) (st : ChainState V) :
    List (MHEvent V) → ℕ
  | [] => 0
  | e :: es =>
    discard_of e st +
      match chain_step max_tries output_every e st with
      | .ok st1 => burn_discards max_tries output_every st1 es
      | .stuck _ => 0

/-- One driver step that does not raise changes the total held weight by
exactly one unit minus the weight discarded to burn-in at that step. -/
theorem chain_step_weight {V : Type} (mt oe : ℕ) (e : MHEvent V) (st st' : ChainState V)
    (h : chain_step mt oe e st = StepResult.ok st') :
    weight_sum st' + discard_of e st = weight_sum st + 1 := by
  cases e with
  | accept trial =>
    by_cases hb : st.burn_in_left = 0
    · simp [chain_step, process_accept_or_reject, out_update, hb] at h
      subst h
      simp [weight_sum, discard_of, hb]
      split <;> simp
    · simp [chain_step, process_accept_or_reject, hb] at h
      subst h
      simp [weight_sum, discard_of, hb]
      try omega
  | reject =>
    by_cases hw : st.current.weight + 1 > mt
    · simp [chain_step, process_accept_or_reject, hw] at h
    · simp [chain_step, process_accept_or_reject, hw] at h
      subst h
      simp [weight_sum, discard_of]
      try omega
  | rejectEarly =>
    simp [chain_step] at h
    subst h
    simp [weight_sum, discard_of]
    try omega

/-- Along any driver run that does not raise, the held weight grows by the
number of processed outcomes minus the weight discarded to burn-in. -/
theorem chain_run_weight {V : Type} (mt oe : ℕ) :
    ∀ (events : List (MHEvent V)) (st st' : ChainState V),
      chain_run mt oe st events = StepResult.ok st' →
      weight_sum st' + burn_discards mt oe st events = weight_sum st + events.length := by
  intro events
  induction events with
  | nil =>
    intro st st' h
    simp only [chain_run, StepResult.ok.injEq] at h
    subst h
    simp [burn_discards]
  | cons e es ih =>
    intro st st' h
    cases hs : chain_step mt oe e st with
    | ok st1 =>
      rw [chain_run, hs] at h
      have hstep := chain_step_weight mt oe e st st1 hs
      have hrun := ih st1 st' h
      rw [burn_discards, hs]
      simp only [List.length_cons]
      omega
    | stuck st1 =>
      rw [chain_run, hs] at h
      cases h

/-- Claim C5 (amended): starting from the seated initial point, after any
processed sequence of accepted and rejected proposals that does not abort, the
sum of the weights in the collection plus the current weight equals the number
of proposals evaluated PLUS one (the initial point), minus the total weight
discarded during burn-in. -/
theorem c5_amended_theorem {V : Type} (x0 : SPoint V) (burn_in mt oe : ℕ)
    (events : List (MHEvent V)) (st' : ChainState V)
    (h : chain_run mt oe (init_chain_state x0 burn_in) events = StepResult.ok st') :
    weight_sum st' + burn_discards mt oe (init_chain_state x0 burn_in) events =
      events.length + 1 := by
  have hrun := chain_run_weight mt oe events (init_chain_state x0 burn_in) st' h
  have hinit : weight_sum (init_chain_state x0 burn_in) = 1 := by
    simp [weight_sum, init_chain_state]
  omega

/-- A concrete initial point over one sampled parameter, for claim C5. -/
def c5_pt : SPoint ℚ :=
  { values := 0, logpost := F.fin 0, logprior := F.fin 0, logliks := [], derived := [],
    weight := 1 }

/-- The chain state after one rejected proposal from c5_pt. -/
def c5_result : ChainState ℚ :=
  { current := { values := 0, logpost := F.fin 0, logprior := F.fin 0, logliks := [],
                 derived := [], weight := 2 },
    collection := [], burn_in_left := 1, n_flushed := 0 }

/-- Claim C5 as stated is false: after one rejected proposal the held weight
is 2 while the stated balance, proposals minus burn-in discards minus one,
gives 0. -/
theorem c5_counterexample :
    chain_run 10 1 (init_chain_state c5_pt 0) [MHEvent.reject] = StepResult.ok c5_result ∧
    ¬ ((weight_sum c5_result : ℤ) =
        ([MHEvent.reject] : List (MHEvent ℚ)).length -
          (burn_discards 10 1 (init_chain_state c5_pt 0) [MHEvent.reject] : ℤ) - 1) := by
  constructor
  · decide
  · decide

/-- Witness for claim C5 at the same concrete run: the amended balance holds,
2 = 1 + 1 with nothing discarded. -/
theorem c5_witness :
    chain_run 10 1 (init_chain_state c5_pt 0) [MHEvent.reject] = StepResult.ok c5_result ∧
    weight_sum c5_result +
        burn_discards 10 1 (init_chain_state c5_pt 0) [MHEvent.reject] =
      ([MHEvent.reject] : List (MHEvent ℚ)).length + 1 :=
  ⟨by decide, c5_amended_theorem c5_pt 0 10 1 [MHEvent.reject] c5_result (by decide)⟩

/-- Claim C8 (amended): a rejection routed through process_accept_or_reject
that pushes the current weight beyond max_tries flushes the collection and
raises the stuck-chain error, aborting the run so that no later outcome is
processed; such a rejection that leaves the weight at or below max_tries
raises nothing. A dragging early rejection, however, bypasses this check. -/
theorem c8_amended_theorem {V : Type} (mt oe : ℕ) (st : ChainState V)
    (rest : List (MHEvent V)) :
    (st.current.weight + 1 > mt →
      chain_run mt oe st (MHEvent.reject :: rest) =
        StepResult.stuck (out_update
          { st with current := { st.current with weight := st.current.weight + 1 } })) ∧
    (st.current.weight + 1 ≤ mt →
      chain_step mt oe MHEvent.reject st =
        StepResult.ok
          { st with current := { st.current with weight := st.current.weight + 1 } }) := by
  constructor
  · intro h
    have hstep : chain_step mt oe MHEvent.reject st =
        StepResult.stuck (out_update
          { st with current := { st.current with weight := st.current.weight + 1 } }) := by
      simp [chain_step, process_accept_or_reject, h]
    rw [chain_run, hstep]
  · intro h
    have h2 : ¬ (st.current.weight + 1 > mt) := by omega
    simp [chain_step, process_accept_or_reject, h2]

/-- A chain state whose current point already carries weight max_tries = 1,
used to settle claim C8. -/
def c8_state : ChainState ℚ :=
  { current := { values := 0, logpost := F.fin 0, logprior := F.fin 0, logliks := [],
                 derived := [], weight := 1 },
    collection := [], burn_in_left := 1, n_flushed := 0 }

/-- Claim C8 as stated is false: the early rejection of the dragging engine
(slow proposal with log-posterior minus infinity) pushes the current weight
beyond max_tries = 1 yet raises no stuck-chain error, and the run continues. -/
theorem c8_counterexample :
    chain_step 1 1 MHEvent.rejectEarly c8_state =
      StepResult.ok { c8_state with current := { c8_state.current with weight := 2 } } ∧
    2 > 1 := by
  constructor
  · decide
  · decide

/-- Witness for claim C8 at a concrete input: the processed rejection from
weight 1 with max_tries 1 flushes and raises, discarding the rest of the
trace. -/
theorem c8_witness :
    c8_state.current.weight + 1 > 1 ∧
    chain_run 1 1 c8_state (MHEvent.reject :: [MHEvent.reject]) =
      StepResult.stuck (out_update
        { c8_state with
          current := { c8_state.current with weight := c8_state.current.weight + 1 } }) :=
  ⟨by decide, (c8_amended_theorem 1 1 c8_state [MHEvent.reject]).1 (by decide)⟩

/-- Claim C10: a rejection processed while the new weight stays at or below
max_tries changes nothing but the current weight, which grows by one: the
collection, the flush counter, the burn-in countdown and every cached field of
the current point are unchanged; and the early dragging rejection acts the
same way. -/
theorem c10_theorem {V : Type} (mt oe : ℕ) (st st' : ChainState V)
    (h : st.current.weight + 1 ≤ mt)
    (hstep : chain_step mt oe MHEvent.reject st = StepResult.ok st') :
    st'.collection = st.collection ∧ st'.n_flushed = st.n_flushed ∧
    st'.burn_in_left = st.burn_in_left ∧
    st'.current.values = st.current.values ∧
    st'.current.logpost = st.current.logpost ∧
    st'.current.logprior = st.current.logprior ∧
    st'.current.logliks = st.current.logliks ∧
    st'.current.derived = st.current.derived ∧
    st'.current.weight = st.current.weight + 1 ∧
    chain_step mt oe MHEvent.rejectEarly st =
      StepResult.ok
        { st with current := { st.current with weight := st.current.weight + 1 } } := by
  have h2 : ¬ (st.current.weight + 1 > mt) := by omega
  simp [chain_step, process_accept_or_reject, h2] at hstep
  subst hstep
  refine ⟨rfl, rfl, rfl, rfl, rfl, rfl, rfl, rfl, rfl, ?_⟩
  simp [chain_step]

/-- The chain state used as the concrete rejection input for claim C10. -/
def c10_state : ChainState ℚ :=
  { current := { values := 3, logpost := F.fin 1, logprior := F.fin 0, logliks := [F.fin 1],
                 derived := [7], weight := 3 },
    collection := [], burn_in_left := 0, n_flushed := 0 }

/-- The chain state after the concrete rejection of claim C10. -/
def c10_result : ChainState ℚ :=
  { current := { values := 3, logpost := F.fin 1, logprior := F.fin 0, logliks := [F.fin 1],
                 derived := [7], weight := 4 },
    collection := [], burn_in_left := 0, n_flushed := 0 }

/-- Witness for claim C10 at a concrete input: rejecting from weight 3 with
max_tries 10 only increments the weight. -/
theorem c10_witness :
    c10_state.current.weight + 1 ≤ 10 ∧
    (c10_result.collection = c10_state.collection ∧
      c10_result.n_flushed = c10_state.n_flushed ∧
      c10_result.burn_in_left = c10_state.burn_in_left ∧
      c10_result.current.values = c10_state.current.values ∧
      c10_result.current.logpost = c10_state.current.logpost ∧
      c10_result.current.logprior = c10_state.current.logprior ∧
      c10_result.current.logliks = c10_state.current.logliks ∧
      c10_result.current.derived = c10_state.current.derived ∧
      c10_result.current.weight = c10_state.current.weight + 1 ∧
      chain_step 10 1 MHEvent.rejectEarly c10_state =
        StepResult.ok
          { c10_state with
            current := { c10_state.current with
                         weight := c10_state.current.weight + 1 } }) :=
  ⟨by decide, c10_theorem 10 1 c10_state c10_result (by decide) (by decide)⟩

/-! Engine selection (mcmc.initialise) and the Metropolis engine
(mcmc.get_new_sample_metropolis). The posterior evaluator is an external pure
function from points to evaluator outputs; the random trial point produced by
the proposer is passed in, as are the random draws.
-/

/-- numpy rounding of a rational: round half to even. -/
def np_round (q : ℚ) : ℤ :=
  if q - ⌊q⌋ < 1 / 2 then ⌊q⌋
  else if (1 : ℚ) / 2 < q - ⌊q⌋ then ⌊q⌋ + 1
  else if ⌊q⌋ % 2 = 0 then ⌊q⌋ else ⌊q⌋ + 1

/-- The two sampling engines a configuration can select. -/
inductive Engine where
  | metropolis : Engine
  | dragging : Engine
deriving DecidableEq

/-- mcmc.initialise engine dispatch: oversampling together with a dragging
flag is an error; oversampling keeps the Metropolis engine after validating
the rounded speed factors; a nonzero drag option selects the dragging engine
after validating speeds and max_speed_slow; otherwise the plain Metropolis
engine is used. Unset integer options are zero; none models the raised
HandledException. -/
def select_engine (oversample : Bool) (drag_nfast_times drag_interp_steps : ℕ)
    (speeds : List ℚ) (max_speed_slow : ℚ) : Option Engine :=
  if oversample && (drag_nfast_times != 0 || drag_interp_steps != 0) then none
  else if oversample then
    if ((speeds.map fun s => np_round (s / speeds.headD 1)).dedup).length = 1 then none
    else some Engine.metropolis
  else if drag_interp_steps != 0 || drag_nfast_times != 0 then
    if speeds.dedup.length = 1 then none
    else if drag_nfast_times != 0 && drag_interp_steps != 0 then none
    else if max_speed_slow < speeds.min?.getD 0 ∨
        speeds.max?.getD 0 ≤ max_speed_slow then none
    else some Engine.dragging
  else some Engine.metropolis

/-- mcmc.initialise: index of the last slow block, one less than the first
block whose speed exceeds max_speed_slow. -/
def i_last_slow_block (speeds : List ℚ) (max_speed_slow : ℚ) : ℕ :=
  (speeds.findIdx fun s => decide (max_speed_slow < s)) - 1

/-- Modelled from the spec: BlockedProposer.get_proposal (not under src)
chooses the perturbed block by a cyclic round-robin schedule over ALL blocks,
oversampling factors defaulting to one; the call k in the cycle perturbs
block k modulo the number of blocks. -/
def get_proposal_block (nblocks k : ℕ) : ℕ :=
  k % nblocks

/-- mcmc.get_new_sample_metropolis: evaluate the posterior at the proposed
trial point, apply the Metropolis rule against the cached current
log-posterior, and hand the outcome to process_accept_or_reject; the Bool
returned is the acceptance flag. -/
def get_new_sample_metropolis {V : Type} (max_tries output_every : ℕ)
    (lp lpr : V → F) (lliks : V → List F) (der : V → List ℚ)
    (trial_point : V) (draw : ℚ) (st : ChainState V) : StepResult V × Bool :=
  let logpost_trial := lp trial_point
  let accept := metropolis_accept draw logpost_trial st.current.logpost
  (process_accept_or_reject max_tries output_every accept
    { values := trial_point, logpost := logpost_trial, logprior := lpr trial_point,
      logliks := lliks trial_point, derived := der trial_point, weight := 1 } st,
   accept)

/-- Claim C6 as stated is false: with drag_interp_steps = 0 (and no other
speed option set) the configuration falls back to the plain Metropolis
engine, whose proposal schedule cycles over ALL blocks; with two blocks of
speeds 1 and 3 and max_speed_slow 2 the second proposal of the cycle
perturbs block 1, which is beyond the last slow block 0, so the step is not
restricted to the slow blocks. -/
theorem c6_counterexample :
    select_engine false 0 0 [1, 3] 2 = some Engine.metropolis ∧
    ¬ (get_proposal_block 2 1 ≤ i_last_slow_block [1, 3] 2) := by
  constructor
  · rfl
  · decide

/-- Claim C6 (amended): configured with drag_interp_steps = 0, no
drag_nfast_times and no oversampling, the sampler selects the plain
Metropolis engine; each iteration then draws one proposal by the cyclic
schedule over all blocks (slow and fast alike) and accepts or rejects it by
the Metropolis rule on one posterior evaluation, with no dragging
interpolation evaluations. -/
theorem c6_amended_theorem {V : Type} (speeds : List ℚ) (max_speed_slow : ℚ)
    (nblocks k mt oe : ℕ) (lp lpr : V → F) (lliks : V → List F) (der : V → List ℚ)
    (trial_point : V) (draw : ℚ) (st : ChainState V) :
    select_engine false 0 0 speeds max_speed_slow = some Engine.metropolis ∧
    get_proposal_block nblocks k = k % nblocks ∧
    (get_new_sample_metropolis mt oe lp lpr lliks der trial_point draw st).2 =
      metropolis_accept draw (lp trial_point) st.current.logpost :=
  ⟨rfl, rfl, rfl⟩

/-! Dragging engine (mcmc.get_new_sample_dragging). The slow proposal, the
per-step fast deltas and the Exp(1) draws are random inputs; the posterior
evaluator is the external function lp. The dragging state carries the two
extreme points with their log-posteriors and the two accumulators, which the
source initialises to the two anchor log-posteriors before the loop.
-/

/-- State of the dragging interpolation: start and end extremes with their
log-posteriors, and the two dragging accumulators. -/
structure DragState (V : Type) where
  start_point : V
  end_point : V
  start_logpost : F
  end_logpost : F
  start_acc : F
  end_acc : F
deriving DecidableEq

/-- Interpolated log-posterior at fraction frac between two extremes. -/
def drag_interp (frac : ℚ) (a b : F) : F :=
  F.add (F.mul (F.fin (1 - frac)) a) (F.mul (F.fin frac) b)

/-- Acceptance of one dragging sub-step: only tested when both proposed
extremes have log-posterior above minus infinity, by the Metropolis rule on
the interpolated log-posteriors at fraction i / (1 + n). -/
def drag_accept {V : Type} (n i : ℕ) (draw : ℚ) (s : DragState V)
    (proposal_start_logpost proposal_end_logpost : F) : Bool :=
  if F.lt F.neginf proposal_start_logpost && F.lt F.neginf proposal_end_logpost then
    metropolis_accept draw
      (drag_interp ((i : ℚ) / (1 + (n : ℚ))) proposal_start_logpost proposal_end_logpost)
      (drag_interp ((i : ℚ) / (1 + (n : ℚ))) s.start_logpost s.end_logpost)
  else false

/-- Body of one dragging sub-step before the accumulator update: shift both
extremes by the fast delta, evaluate the start extreme, evaluate the end
extreme only when the start one is above minus infinity (short circuit to
minus infinity otherwise), and replace the extremes on acceptance. -/
def drag_step_core {V : Type} [Add V] (lp : V → F) (n i : ℕ) (delta : V) (draw : ℚ)
    (s : DragState V) : DragState V :=
  let proposal_start_point := s.start_point + delta
  let proposal_end_point := s.end_point + delta
  let proposal_start_logpost := lp proposal_start_point
  let proposal_end_logpost :=
    if F.lt F.neginf proposal_start_logpost then lp proposal_end_point else F.neginf
  if drag_accept n i draw s proposal_start_logpost proposal_end_logpost then
    { s with start_point := proposal_start_point, end_point := proposal_end_point,
             start_logpost := proposal_start_logpost, end_logpost := proposal_end_logpost }
  else s

/-- One full dragging sub-step: the core update followed by the unconditional
accumulator update with the now-current extreme log-posteriors. -/
def drag_step {V : Type} [Add V] (lp : V → F) (n i : ℕ) (delta : V) (draw : ℚ)
    (s : DragState V) : DragState V :=
  let s1 := drag_step_core lp n i delta draw s
  { s1 with start_acc := F.add s1.start_acc s1.start_logpost,
            end_acc := F.add s1.end_acc s1.end_logpost }

/-- The dragging state after the first k sub-steps, sub-step i using the fast
delta deltas i and the draw draws i. -/
def drag_run {V : Type} [Add V] (lp : V → F) (n : ℕ) (deltas : ℕ → V) (draws : ℕ → ℚ)
    (s0 : DragState V) : ℕ → DragState V
  | 0 => s0
  | k + 1 => drag_step lp n (k + 1) (deltas (k + 1)) (draws (k + 1))
      (drag_run lp n deltas draws s0 k)

/-- The dragging state before the loop: both extremes anchored, and the two
accumulators initialised to the anchor log-posteriors. -/
def drag_init {V : Type} (start_point end_point : V) (start_logpost end_logpost : F) :
    DragState V :=
  { start_point := start_point, end_point := end_point, start_logpost := start_logpost,
    end_logpost := end_logpost, start_acc := start_logpost, end_acc := end_logpost }

/-- Outcome of one dragging step: the total acceptance flag, the final
dragging state, and whether the step was rejected early because the slow
proposal had log-posterior minus infinity. -/
structure DragResult (V : Type) where
  accept : Bool
  state : DragState V
  early_reject : Bool
deriving DecidableEq

/-- mcmc.get_new_sample_dragging: reject immediately when the slow proposal
evaluates to minus infinity; otherwise run the n dragging sub-steps and
accept by the Metropolis rule on the two accumulators divided by n. -/
def get_new_sample_dragging {V : Type} [Add V] (lp : V → F) (n : ℕ)
    (start_point : V) (start_logpost : F) (end_point : V)
    (deltas : ℕ → V) (draws : ℕ → ℚ) (final_draw : ℚ) : DragResult V :=
  let end_logpost := lp end_point
  if end_logpost = F.neginf then
    { accept := false, state := drag_init start_point end_point start_logpost end_logpost,
      early_reject := true }
  else
    let s := drag_run lp n deltas draws
      (drag_init start_point end_point start_logpost end_logpost) n
    { accept := metropolis_accept final_draw (s.end_acc.divNat n) (s.start_acc.divNat n),
      state := s, early_reject := false }

/-- The sum, over the first k dragging sub-steps, of the start-extreme
log-posterior current after each sub-step; this is the quantity claim C3
says the start accumulator holds. -/
def drag_start_sum {V : Type} [Add V] (lp : V → F) (n : ℕ) (deltas : ℕ → V)
    (draws : ℕ → ℚ) (s0 : DragState V) : ℕ → F
  | 0 => F.fin 0
  | k + 1 => F.add (drag_start_sum lp n deltas draws s0 k)
      ((drag_run lp n deltas draws s0 (k + 1)).start_logpost)

/-- The sum, over the first k dragging sub-steps, of the end-extreme
log-posterior current after each sub-step. -/
def drag_end_sum {V : Type} [Add V] (lp : V → F) (n : ℕ) (deltas : ℕ → V)
    (draws : ℕ → ℚ) (s0 : DragState V) : ℕ → F
  | 0 => F.fin 0
  | k + 1 => F.add (drag_end_sum lp n deltas draws s0 k)
      ((drag_run lp n deltas draws s0 (k + 1)).end_logpost)

/-- Adding finite zero on the right changes nothing. -/
theorem F.addFinZero (x : F) : F.add x (F.fin 0) = x := by
  cases x <;> simp [F.add]

/-- Float addition in F is associative (true without rounding: NaN absorbs,
and any mixed-infinity sum passes through NaN coherently). -/
theorem F.addAssoc (a b c : F) : F.add (F.add a b) c = F.add a (F.add b c) := by
  cases a <;> cases b <;> cases c <;> simp [F.add, add_assoc]

/-- The core of a dragging sub-step never touches the start accumulator. -/
theorem drag_step_core_start_acc {V : Type} [Add V] (lp : V → F) (n i : ℕ) (delta : V)
    (draw : ℚ) (s : DragState V) :
    (drag_step_core lp n i delta draw s).start_acc = s.start_acc := by
  unfold drag_step_core
  dsimp only
  split <;> split <;> rfl

/-- The core of a dragging sub-step never touches the end accumulator. -/
theorem drag_step_core_end_acc {V : Type} [Add V] (lp : V → F) (n i : ℕ) (delta : V)
    (draw : ℚ) (s : DragState V) :
    (drag_step_core lp n i delta draw s).end_acc = s.end_acc := by
  unfold drag_step_core
  dsimp only
  split <;> split <;> rfl

/-- One dragging sub-step adds the now-current start log-posterior to the
start accumulator. -/
theorem drag_step_start_acc {V : Type} [Add V] (lp : V → F) (n i : ℕ) (delta : V)
    (draw : ℚ) (s : DragState V) :
    (drag_step lp n i delta draw s).start_acc =
      F.add s.start_acc ((drag_step lp n i delta draw s).start_logpost) := by
  unfold drag_step
  dsimp only
  rw [drag_step_core_start_acc]

/-- One dragging sub-step adds the now-current end log-posterior to the end
accumulator. -/
theorem drag_step_end_acc {V : Type} [Add V] (lp : V → F) (n i : ℕ) (delta : V)
    (draw : ℚ) (s : DragState V) :
    (drag_step lp n i delta draw s).end_acc =
      F.add s.end_acc ((drag_step lp n i delta draw s).end_logpost) := by
  unfold drag_step
  dsimp only
  rw [drag_step_core_end_acc]

/-- After k dragging sub-steps the start accumulator holds its initial value
plus the sum of the k current start log-posteriors. -/
theorem drag_run_start_acc {V : Type} [Add V] (lp : V → F) (n : ℕ) (deltas : ℕ → V)
    (draws : ℕ → ℚ) (s0 : DragState V) :
    ∀ k, (drag_run lp n deltas draws s0 k).start_acc =
      F.add s0.start_acc (drag_start_sum lp n deltas draws s0 k) := by
  intro k
  induction k with
  | zero => simp [drag_run, drag_start_sum, F.addFinZero]
  | succ k ih =>
    rw [drag_run, drag_step_start_acc, ih, F.addAssoc, drag_start_sum]
    rfl

/-- After k dragging sub-steps the end accumulator holds its initial value
plus the sum of the k current end log-posteriors. -/
theorem drag_run_end_acc {V : Type} [Add V] (lp : V → F) (n : ℕ) (deltas : ℕ → V)
    (draws : ℕ → ℚ) (s0 : DragState V) :
    ∀ k, (drag_run lp n deltas draws s0 k).end_acc =
      F.add s0.end_acc (drag_end_sum lp n deltas draws s0 k) := by
  intro k
  induction k with
  | zero => simp [drag_run, drag_end_sum, F.addFinZero]
  | succ k ih =>
    rw [drag_run, drag_step_end_acc, ih, F.addAssoc, drag_end_sum]
    rfl

/-- Claim C3 (amended): with n at least 1 and a slow proposal whose
log-posterior is not minus infinity, each accumulator of
get_new_sample_dragging holds the corresponding ANCHOR log-posterior plus the
sum over the n sub-steps of the current extreme log-posterior after each
sub-step (n + 1 terms in total, not n), and the total acceptance applies the
Metropolis rule to the two accumulators divided by n. -/
theorem c3_amended_theorem {V : Type} [Add V] (lp : V → F) (n : ℕ)
    (start_point : V) (start_logpost : F) (end_point : V)
    (deltas : ℕ → V) (draws : ℕ → ℚ) (final_draw : ℚ)
    (_hn : 1 ≤ n) (hend : lp end_point ≠ F.neginf) :
    (get_new_sample_dragging lp n start_point start_logpost end_point deltas draws
        final_draw).state.start_acc =
      F.add start_logpost
        (drag_start_sum lp n deltas draws
          (drag_init start_point end_point start_logpost (lp end_point)) n) ∧
    (get_new_sample_dragging lp n start_point start_logpost end_point deltas draws
        final_draw).state.end_acc =
      F.add (lp end_point)
        (drag_end_sum lp n deltas draws
          (drag_init start_point end_point start_logpost (lp end_point)) n) ∧
    (get_new_sample_dragging lp n start_point start_logpost end_point deltas draws
        final_draw).accept =
      metropolis_accept final_draw
        (((get_new_sample_dragging lp n start_point start_logpost end_point deltas draws
            final_draw).state.end_acc).divNat n)
        (((get_new_sample_dragging lp n start_point start_logpost end_point deltas draws
            final_draw).state.start_acc).divNat n) := by
  unfold get_new_sample_dragging
  dsimp only
  rw [if_neg hend]
  dsimp only
  refine ⟨?_, ?_, rfl⟩
  · rw [drag_run_start_acc]
    rfl
  · rw [drag_run_end_acc]
    rfl

/-- The constant posterior evaluator used for the concrete dragging runs. -/
def c3_lp : ℚ → F := fun _ => F.fin 1

/-- Claim C3 as stated is false: in a concrete dragging run with n = 1 and all
log-posteriors equal to 1, the start accumulator ends at 2 (anchor plus one
sub-step term) while the sum over exactly the n sub-steps is 1. -/
theorem c3_counterexample :
    (get_new_sample_dragging c3_lp 1 (0 : ℚ) (F.fin 1) 0 (fun _ => 0) (fun _ => 1)
        1).state.start_acc ≠
      drag_start_sum c3_lp 1 (fun _ => 0) (fun _ => 1)
        (drag_init 0 0 (F.fin 1) (c3_lp 0)) 1 := by
  have h : (F.fin 1 : F) ≠ F.neginf := by decide
  norm_num [get_new_sample_dragging, drag_run, drag_step, drag_step_core, drag_accept,
    drag_interp, drag_start_sum, drag_init, metropolis_accept, F.lt, F.add, F.mul, F.sub,
    F.neg, F.divNat, c3_lp, h]

/-- Witness for claim C3 at the concrete dragging run with n = 1: the amended
accumulator identities and the final Metropolis test on the accumulator
averages hold there. -/
theorem c3_witness :
    (1 : ℕ) ≤ 1 ∧ c3_lp 0 ≠ F.neginf ∧
    ((get_new_sample_dragging c3_lp 1 (0 : ℚ) (F.fin 1) 0 (fun _ => 0) (fun _ => 1)
          1).state.start_acc =
        F.add (F.fin 1)
          (drag_start_sum c3_lp 1 (fun _ => 0) (fun _ => 1)
            (drag_init 0 0 (F.fin 1) (c3_lp 0)) 1) ∧
      (get_new_sample_dragging c3_lp 1 (0 : ℚ) (F.fin 1) 0 (fun _ => 0) (fun _ => 1)
          1).state.end_acc =
        F.add (c3_lp 0)
          (drag_end_sum c3_lp 1 (fun _ => 0) (fun _ => 1)
            (drag_init 0 0 (F.fin 1) (c3_lp 0)) 1) ∧
      (get_new_sample_dragging c3_lp 1 (0 : ℚ) (F.fin 1) 0 (fun _ => 0) (fun _ => 1)
          1).accept =
        metropolis_accept 1
          (((get_new_sample_dragging c3_lp 1 (0 : ℚ) (F.fin 1) 0 (fun _ => 0)
              (fun _ => 1) 1).state.end_acc).divNat 1)
          (((get_new_sample_dragging c3_lp 1 (0 : ℚ) (F.fin 1) 0 (fun _ => 0)
              (fun _ => 1) 1).state.start_acc).divNat 1)) :=
  ⟨le_refl 1, by decide,
    c3_amended_theorem c3_lp 1 0 (F.fin 1) 0 (fun _ => 0) (fun _ => 1) 1 (le_refl 1)
      (by decide)⟩

/-- A NaN trial log-posterior is always rejected by the Metropolis rule. -/
theorem metropolis_accept_nan_trial (draw : ℚ) (c : F) :
    metropolis_accept draw F.nan c = false := by
  cases c <;> simp [metropolis_accept, F.lt, F.sub, F.neg, F.add]

/-- Against a NaN current log-posterior the Metropolis rule always rejects. -/
theorem metropolis_accept_nan_current (draw : ℚ) (t : F) :
    metropolis_accept draw t F.nan = false := by
  cases t <;> simp [metropolis_accept, F.lt, F.sub, F.neg, F.add]

/-- NaN absorbs on the right of float addition. -/
theorem F.addNanRight (x : F) : F.add x F.nan = F.nan := by
  cases x <;> rfl

/-- NaN absorbs on the right of float multiplication. -/
theorem F.mulNanRight (x : F) : F.mul x F.nan = F.nan := by
  cases x <;> rfl

/-- Dividing NaN by any count yields NaN. -/
theorem F.divNatNan (n : ℕ) : F.divNat F.nan n = F.nan := by
  unfold F.divNat
  split <;> rfl

/-- Being above minus infinity in the float order excludes minus infinity and
NaN. -/
theorem F.lt_neginf_elim {x : F} (h : F.lt F.neginf x = true) :
    x ≠ F.neginf ∧ x ≠ F.nan := by
  cases x <;> simp [F.lt] at h ⊢

/-- Interpolating towards a NaN extreme yields NaN. -/
theorem drag_interp_nan_right (frac : ℚ) (a : F) :
    drag_interp frac a F.nan = F.nan := by
  unfold drag_interp
  rw [F.mulNanRight, F.addNanRight]

/-- No dragging sub-step is accepted while the current end extreme carries a
NaN log-posterior: the current interpolated value is NaN and the Metropolis
rule rejects. -/
theorem drag_accept_end_nan {V : Type} (n i : ℕ) (draw : ℚ) (s : DragState V)
    (ps pe : F) (h : s.end_logpost = F.nan) :
    drag_accept n i draw s ps pe = false := by
  unfold drag_accept
  split
  · rw [h, drag_interp_nan_right, metropolis_accept_nan_current]
  · rfl

/-- An accepted dragging sub-step has its proposed end log-posterior above
minus infinity. -/
theorem drag_accept_true_end {V : Type} (n i : ℕ) (draw : ℚ) (s : DragState V)
    (ps pe : F) (h : drag_accept n i draw s ps pe = true) :
    F.lt F.neginf pe = true := by
  unfold drag_accept at h
  by_cases hc : (F.lt F.neginf ps && F.lt F.neginf pe) = true
  · exact (Bool.and_eq_true_iff.mp hc).2
  · rw [if_neg hc] at h
    cases h

/-- The sub-step core keeps the end log-posterior away from minus infinity
and NaN. -/
theorem drag_step_core_end_ok {V : Type} [Add V] (lp : V → F) (n i : ℕ) (delta : V)
    (draw : ℚ) (s : DragState V)
    (h1 : s.end_logpost ≠ F.neginf) (h2 : s.end_logpost ≠ F.nan) :
    (drag_step_core lp n i delta draw s).end_logpost ≠ F.neginf ∧
    (drag_step_core lp n i delta draw s).end_logpost ≠ F.nan := by
  unfold drag_step_core
  dsimp only
  split
  · split
    · rename_i hacc
      exact F.lt_neginf_elim (drag_accept_true_end _ _ _ _ _ _ hacc)
    · exact ⟨h1, h2⟩
  · split
    · rename_i hacc
      have hlt := drag_accept_true_end _ _ _ _ _ _ hacc
      simp [F.lt] at hlt
    · exact ⟨h1, h2⟩

/-- With a NaN current end log-posterior the sub-step core changes nothing. -/
theorem drag_step_core_end_nan {V : Type} [Add V] (lp : V → F) (n i : ℕ) (delta : V)
    (draw : ℚ) (s : DragState V) (h : s.end_logpost = F.nan) :
    drag_step_core lp n i delta draw s = s := by
  unfold drag_step_core
  dsimp only
  rw [drag_accept_end_nan _ _ _ _ _ _ h]
  simp

/-- A full sub-step carries the end log-posterior of its core. -/
theorem drag_step_end_logpost {V : Type} [Add V] (lp : V → F) (n i : ℕ) (delta : V)
    (draw : ℚ) (s : DragState V) :
    (drag_step lp n i delta draw s).end_logpost =
      (drag_step_core lp n i delta draw s).end_logpost := by
  unfold drag_step
  dsimp only

/-- Along the dragging loop the end log-posterior stays away from minus
infinity and NaN when it starts away from them. -/
theorem drag_run_end_ok {V : Type} [Add V] (lp : V → F) (n : ℕ) (deltas : ℕ → V)
    (draws : ℕ → ℚ) (s0 : DragState V)
    (h1 : s0.end_logpost ≠ F.neginf) (h2 : s0.end_logpost ≠ F.nan) :
    ∀ k, (drag_run lp n deltas draws s0 k).end_logpost ≠ F.neginf ∧
      (drag_run lp n deltas draws s0 k).end_logpost ≠ F.nan := by
  intro k
  induction k with
  | zero => exact ⟨h1, h2⟩
  | succ k ih =>
    rw [drag_run, drag_step_end_logpost]
    exact drag_step_core_end_ok _ _ _ _ _ _ ih.1 ih.2

/-- Along the dragging loop a NaN end log-posterior persists and poisons the
end accumulator. -/
theorem drag_run_end_nan {V : Type} [Add V] (lp : V → F) (n : ℕ) (deltas : ℕ → V)
    (draws : ℕ → ℚ) (s0 : DragState V)
    (h : s0.end_logpost = F.nan) (ha : s0.end_acc = F.nan) :
    ∀ k, (drag_run lp n deltas draws s0 k).end_logpost = F.nan ∧
      (drag_run lp n deltas draws s0 k).end_acc = F.nan := by
  intro k
  induction k with
  | zero => exact ⟨h, ha⟩
  | succ k ih =>
    constructor
    · rw [drag_run, drag_step_end_logpost, drag_step_core_end_nan _ _ _ _ _ _ ih.1]
      exact ih.1
    · rw [drag_run, drag_step_end_acc, drag_step_end_logpost,
        drag_step_core_end_nan _ _ _ _ _ _ ih.1, ih.1, ih.2]
      rfl

/-- Modelled from the spec: prior.reference (not under src) retries the
reference draw up to max_tries times while the posterior of the draw is
non-finite, so a draw it hands back has finite log-posterior. -/
def reference_draw_ok {V : Type} (lp : V → F) (x : V) : Prop :=
  (lp x).isFinite = true

/-- mcmc.run seating of the initial point: the current point takes the drawn
values, the evaluator outputs at them, and weight one. -/
def initial_current_point {V : Type} (lp lpr : V → F) (lliks : V → List F)
    (der : V → List ℚ) (x : V) : SPoint V :=
  { values := x, logpost := lp x, logprior := lpr x, logliks := lliks x,
    derived := der x, weight := 1 }

/-- Claim C4 as stated is false: the Metropolis engine accepts a trial with
log-posterior plus infinity, which is not finite, and installs it as the
current point. -/
theorem c4_counterexample :
    metropolis_accept 1 F.posinf (F.fin 0) = true ∧
    (F.posinf).isFinite = false := by
  constructor <;> rfl

/-- Claim C4 (amended): a point with log-posterior minus infinity or NaN is
never installed as current: every trial the Metropolis rule accepts has
log-posterior distinct from minus infinity and NaN (though possibly plus
infinity); every accepted dragging step installs an end point whose
log-posterior is distinct from minus infinity and NaN; and the initial point,
drawn by the reference (spec-modelled as returning a finite-posterior draw),
is seated with finite log-posterior. -/
theorem c4_amended_theorem {V : Type} [Add V] (draw : ℚ) (t c : F) (lp lpr : V → F)
    (lliks : V → List F) (der : V → List ℚ) (x : V) (n : ℕ)
    (start_point : V) (start_logpost : F) (end_point : V)
    (deltas : ℕ → V) (draws : ℕ → ℚ) (final_draw : ℚ) :
    (metropolis_accept draw t c = true → t ≠ F.neginf ∧ t ≠ F.nan) ∧
    ((get_new_sample_dragging lp n start_point start_logpost end_point deltas draws
        final_draw).accept = true →
      (get_new_sample_dragging lp n start_point start_logpost end_point deltas draws
          final_draw).state.end_logpost ≠ F.neginf ∧
      (get_new_sample_dragging lp n start_point start_logpost end_point deltas draws
          final_draw).state.end_logpost ≠ F.nan) ∧
    (reference_draw_ok lp x →
      (initial_current_point lp lpr lliks der x).logpost.isFinite = true) := by
  refine ⟨?_, ?_, ?_⟩
  · intro h
    cases t with
    | nan => rw [metropolis_accept_nan_trial] at h; cases h
    | neginf => simp [metropolis_accept] at h
    | fin q => exact ⟨fun hh => F.noConfusion hh, fun hh => F.noConfusion hh⟩
    | posinf => exact ⟨fun hh => F.noConfusion hh, fun hh => F.noConfusion hh⟩
  · intro h
    unfold get_new_sample_dragging at h ⊢
    dsimp only at h ⊢
    by_cases he : lp end_point = F.neginf
    · rw [if_pos he] at h
      cases h
    · rw [if_neg he] at h ⊢
      dsimp only at h ⊢
      by_cases hnan : lp end_point = F.nan
      · have hrun := drag_run_end_nan lp n deltas draws
          (drag_init start_point end_point start_logpost (lp end_point)) hnan hnan n
        rw [hrun.2, F.divNatNan, metropolis_accept_nan_trial] at h
        cases h
      · exact drag_run_end_ok lp n deltas draws
          (drag_init start_point end_point start_logpost (lp end_point)) he hnan n
  · intro h
    exact h

/-- Witness for claim C4 at concrete inputs: an accepted finite Metropolis
trial, an accepted concrete dragging run, and a seated reference draw, each
satisfying the amended conclusion. -/
theorem c4_witness :
    (metropolis_accept 2 (F.fin 1) (F.fin 0) = true ∧
      ((F.fin 1 : F) ≠ F.neginf ∧ (F.fin 1 : F) ≠ F.nan)) ∧
    ((get_new_sample_dragging c3_lp 1 (0 : ℚ) (F.fin 1) 0 (fun _ => 0) (fun _ => 1)
        1).accept = true ∧
      ((get_new_sample_dragging c3_lp 1 (0 : ℚ) (F.fin 1) 0 (fun _ => 0) (fun _ => 1)
          1).state.end_logpost ≠ F.neginf ∧
        (get_new_sample_dragging c3_lp 1 (0 : ℚ) (F.fin 1) 0 (fun _ => 0) (fun _ => 1)
          1).state.end_logpost ≠ F.nan)) ∧
    (reference_draw_ok c3_lp 0 ∧
      (initial_current_point c3_lp c3_lp (fun _ => []) (fun _ => []) 0).logpost.isFinite =
        true) := by
  have H := c4_amended_theorem 2 (F.fin 1) (F.fin 0) c3_lp c3_lp
    (fun _ => ([] : List F)) (fun _ => ([] : List ℚ)) (0 : ℚ) 1 (0 : ℚ) (F.fin 1) 0
    (fun _ => (0 : ℚ)) (fun _ => (1 : ℚ)) 1
  have hacc : (get_new_sample_dragging c3_lp 1 (0 : ℚ) (F.fin 1) 0 (fun _ => 0)
      (fun _ => 1) 1).accept = true := by
    have h : (F.fin 1 : F) ≠ F.neginf := by decide
    have h2 : (F.fin 2 : F) ≠ F.neginf := by decide
    norm_num [get_new_sample_dragging, drag_run, drag_step, drag_step_core, drag_accept,
      drag_interp, drag_init, metropolis_accept, F.lt, F.add, F.mul, F.sub, F.neg,
      F.divNat, c3_lp, h, h2]
  exact ⟨⟨by decide, H.1 (by decide)⟩, ⟨hacc, H.2.1 hacc⟩,
    ⟨rfl, H.2.2 (show reference_draw_ok c3_lp 0 from rfl)⟩⟩

/-! Convergence checkpoint (mcmc.check_convergence_and_learn_proposal), as seen
from the rank-0 logical control flow. The linear algebra is external: the
computed R minus 1 statistic, the bound statistic and whether the Cholesky
factorisation succeeded enter as inputs. The attribute Rminus1_last, which the
source only assigns after a successful checkpoint, is an Option; reading it
while unset raises the modelled AttributeError.
-/

/-- The sampler attributes read and written by the convergence checkpoint. -/
structure ConvState where
  Rminus1_last : Option ℚ
  converged : Bool
deriving DecidableEq

/-- The Python exception escaping the checkpoint in the modelled slice. -/
inductive ConvError where
  | attributeError : ConvError
deriving DecidableEq

/-- Checkpoint outcome: the updated attributes and whether a new proposal
covariance was pushed into the proposer. -/
structure ConvOutcome where
  state : ConvState
  covariance_updated : Bool
deriving DecidableEq

/-- mcmc.check_convergence_and_learn_proposal: under MPI, a successful
Cholesky updates Rminus1_last and possibly the converged flag, a failed one
leaves both unchanged; then, if learning is on and the chain has not
converged, the learning gate under MPI reads Rminus1_last unconditionally,
which raises AttributeError when no checkpoint has succeeded yet, and
otherwise updates the proposal covariance exactly when R minus 1 lies
strictly between the two learning thresholds. Without MPI the convergence
block is skipped and learning always updates. -/
def check_convergence_and_learn_proposal (mpi learn_proposal cholesky_ok : Bool)
    (Rminus1 Rminus1_cl Rminus1_stop Rminus1_cl_stop lp_min lp_max : ℚ)
    (st : ConvState) : Except ConvError ConvOutcome :=
  let st1 :=
    if mpi then
      if cholesky_ok then
        let conv_means : Bool :=
          match st.Rminus1_last with
          | some l => decide (max Rminus1 l < Rminus1_stop)
          | none => false
        let conv : Bool :=
          if conv_means && decide (Rminus1_cl < Rminus1_cl_stop) then true
          else st.converged
        { Rminus1_last := some Rminus1, converged := conv }
      else st
    else st
  if learn_proposal && !st1.converged then
    if mpi then
      match st1.Rminus1_last with
      | none => Except.error ConvError.attributeError
      | some l =>
        if lp_max > l ∧ l > lp_min then
          Except.ok { state := st1, covariance_updated := true }
        else
          Except.ok { state := st1, covariance_updated := false }
    else Except.ok { state := st1, covariance_updated := true }
  else Except.ok { state := st1, covariance_updated := false }

/-- Claim C9 concerns a code bug: at the first checkpoint under MPI with
learning on, a Cholesky failure leads the learning gate to read the still
unset Rminus1_last and raise AttributeError instead of skipping the
checkpoint and continuing; at any later checkpoint (Rminus1_last set by a
previous success) the same failure is recoverable exactly as the claim says,
leaving Rminus1_last and the converged flag unchanged. -/
theorem c9_theorem :
    check_convergence_and_learn_proposal true true false 0 0 1 1 0 10
        { Rminus1_last := none, converged := false } =
      Except.error ConvError.attributeError ∧
    check_convergence_and_learn_proposal true true false 0 0 1 1 0 10
        { Rminus1_last := some 1, converged := false } =
      Except.ok { state := { Rminus1_last := some 1, converged := false },
                  covariance_updated := true } := by
  constructor
  · rfl
  · rfl
